import Mathlib

/-!
Verification of the TaskMasterTS task-management core
(`src/components/TodoApp.tsx`).

The TypeScript source is shallowly embedded:

* `Date` values (only ever compared through `getTime()`) become `Int`
  epoch milliseconds.
* The singleton `TaskManager`'s private `taskMap : Map<string, Task>` becomes
  an association list threaded explicitly through the reducer, so that the
  mutation performed by `taskReducer` on the singleton is visible as the first
  component of the returned pair.
* `crypto.randomUUID()` and `new Date()` inside the `ADD_TASK` branch become
  the injected parameters `freshId` and `now` of `taskReducer`.
* `Array.prototype.sort` is specified by ECMAScript to be a stable sort with
  respect to the comparator; it is embedded as `List.insertionSort` over the
  comparator's induced "comes no later than" relation, which is a stable
  sorting algorithm.
* `String.prototype.trim` is embedded as `jsTrim`, removing whitespace
  characters from both ends of the character list.
-/

namespace TodoApp

/-- `'low' | 'medium' | 'high'` from the `Task` interface. -/
inductive Priority where
  | low
  | medium
  | high
deriving DecidableEq

/-- The `Task` interface.  `createdAt` and `dueDate` are epoch milliseconds. -/
structure Task where
  id : String
  title : String
  description : String
  completed : Bool
  priority : Priority
  createdAt : Int
  dueDate : Option Int
  tags : List String
deriving DecidableEq

/-- `'all' | 'active' | 'completed'`, the status filter of `TaskState`. -/
inductive StatusFilter where
  | all
  | active
  | completed
deriving DecidableEq

/-- `'all' | 'low' | 'medium' | 'high'`, the priority filter of `TaskState`. -/
inductive PriorityFilter where
  | all
  | low
  | medium
  | high
deriving DecidableEq

/-- The `TaskState` interface. -/
structure TaskState where
  tasks : List Task
  filter : StatusFilter
  searchQuery : String
  selectedPriority : PriorityFilter
deriving DecidableEq

/-- `Omit<Task, 'id' | 'createdAt'>`, the `ADD_TASK` payload. -/
structure AddPayload where
  title : String
  description : String
  completed : Bool
  priority : Priority
  dueDate : Option Int
  tags : List String
deriving DecidableEq

/-- `Partial<Task>`, the `updates` component of the `UPDATE_TASK` payload.
A field that is `none` is absent from the JavaScript object. -/
structure TaskUpdates where
  id : Option String
  title : Option String
  description : Option String
  completed : Option Bool
  priority : Option Priority
  createdAt : Option Int
  dueDate : Option (Option Int)
  tags : Option (List String)
deriving DecidableEq

/-- The `TaskAction` tagged union. -/
inductive TaskAction where
  | addTask (payload : AddPayload)
  | updateTask (id : String) (updates : TaskUpdates)
  | deleteTask (id : String)
  | toggleTask (id : String)
  | setFilter (f : StatusFilter)
  | setSearch (q : String)
  | setPriorityFilter (p : PriorityFilter)
  | clearCompleted
deriving DecidableEq

/-- The spread `{ ...task, ...updates }`: fields present in `updates`
overwrite the corresponding fields of `task`. -/
def mergeTask (task : Task) (u : TaskUpdates) : Task :=
  { id := u.id.getD task.id
    title := u.title.getD task.title
    description := u.description.getD task.description
    completed := u.completed.getD task.completed
    priority := u.priority.getD task.priority
    createdAt := u.createdAt.getD task.createdAt
    dueDate := u.dueDate.getD task.dueDate
    tags := u.tags.getD task.tags }

/-- A `Partial<Task>` that only sets `completed`, as built inline by the
`TOGGLE_TASK` branch of the reducer. -/
def completedOnly (b : Bool) : TaskUpdates :=
  { id := none, title := none, description := none, completed := some b
    priority := none, createdAt := none, dueDate := none, tags := none }

/-- A `Partial<Task>` that sets `title` and `description`, as built by
`TaskItem.handleSave`: `{ title: editTitle.trim(), description:
editDescription.trim() }`. -/
def editUpdates (title description : String) : TaskUpdates :=
  { id := none, title := some title, description := some description
    completed := none, priority := none, createdAt := none, dueDate := none
    tags := none }

/-- The private `taskMap : Map<string, Task>` of `TaskManager`, as an
association list in insertion order. -/
abbrev TaskMgr : Type := List (String × Task)

/-- `Map.prototype.get`. -/
def mapGet : TaskMgr → String → Option Task
  | [], _ => none
  | (k, v) :: rest, key => if k = key then some v else mapGet rest key

/-- `Map.prototype.set`: overwrite in place when the key is present,
otherwise append. -/
def mapSet : TaskMgr → String → Task → TaskMgr
  | [], key, v => [(key, v)]
  | (k, w) :: rest, key, v =>
    if k = key then (key, v) :: rest else (k, w) :: mapSet rest key v

/-- `Map.prototype.delete` (a real `Map` holds each key at most once). -/
def mapDelete : TaskMgr → String → TaskMgr
  | [], _ => []
  | (k, w) :: rest, key => if k = key then rest else (k, w) :: mapDelete rest key

/-- `TaskManager.addTask`: `this.taskMap.set(task.id, task)`. -/
def TaskManager.addTask (m : TaskMgr) (task : Task) : TaskMgr :=
  mapSet m task.id task

/-- `TaskManager.updateTask`.  Returns the TypeScript return value
(`Task | null`) together with the updated map. -/
def TaskManager.updateTask (m : TaskMgr) (id : String) (updates : TaskUpdates) :
    Option Task × TaskMgr :=
  match mapGet m id with
  | none => (none, m)
  | some task =>
    let updatedTask := mergeTask task updates
    (some updatedTask, mapSet m id updatedTask)

/-- `TaskManager.deleteTask`. -/
def TaskManager.deleteTask (m : TaskMgr) (id : String) : TaskMgr :=
  mapDelete m id

/-- `priorityOrder = { high: 3, medium: 2, low: 1 }`. -/
def priorityOrder : Priority → Int
  | Priority.high => 3
  | Priority.medium => 2
  | Priority.low => 1

/-- `task.priority !== priorityFilter` compares the two string unions; this
is the cross-type equality test. -/
def priorityEq (p : PriorityFilter) (pr : Priority) : Bool :=
  match p, pr with
  | PriorityFilter.low, Priority.low => true
  | PriorityFilter.medium, Priority.medium => true
  | PriorityFilter.high, Priority.high => true
  | _, _ => false

/-- `hay.includes(needle)` on character lists: `needle` occurs contiguously. -/
def charsStartWith : List Char → List Char → Bool
  | [], _ => true
  | _ :: _, [] => false
  | a :: as, b :: bs => a == b && charsStartWith (a :: as).tail (b :: bs).tail

/-- `hay.includes(needle)`: some suffix of `hay` starts with `needle`. -/
def charsContain (needle : List Char) : List Char → Bool
  | [] => needle.isEmpty
  | c :: rest => charsStartWith needle (c :: rest) || charsContain needle rest

/-- `s.includes(sub)` for strings. -/
def strIncludes (s sub : String) : Bool :=
  charsContain sub.data s.data

/-- The whitespace test used by `jsTrim`. -/
def wsChar (c : Char) : Bool := c.isWhitespace

/-- `String.prototype.trim` on the underlying character list. -/
def trimChars (l : List Char) : List Char :=
  ((l.dropWhile wsChar).reverse.dropWhile wsChar).reverse

/-- `String.prototype.trim`. -/
def jsTrim (s : String) : String :=
  String.mk (trimChars s.data)

/-- The body of the arrow function passed to `.filter` inside
`TaskManager.filterTasks`, with its three early `return false` exits. -/
def taskPass (f : StatusFilter) (q : String) (p : PriorityFilter) (task : Task) :
    Bool :=
  if f == StatusFilter.active && task.completed then false
  else if f == StatusFilter.completed && !task.completed then false
  else if !(q == "") && !(strIncludes task.title.toLower q.toLower)
      && !(strIncludes task.description.toLower q.toLower) then false
  else if !(p == PriorityFilter.all) && !(priorityEq p task.priority) then false
  else true

/-- The comparator passed to `.sort` inside `TaskManager.filterTasks`:
`priorityOrder[b.priority] - priorityOrder[a.priority]`, falling back to
`b.createdAt.getTime() - a.createdAt.getTime()`. -/
def compareTasks (a b : Task) : Int :=
  let priorityDiff := priorityOrder b.priority - priorityOrder a.priority
  if priorityDiff ≠ 0 then priorityDiff else b.createdAt - a.createdAt

/-- `a` comes no later than `b` under the comparator: `compareTasks a b ≤ 0`. -/
def taskLE (a b : Task) : Prop := compareTasks a b ≤ 0

instance : DecidableRel taskLE := fun a b =>
  inferInstanceAs (Decidable (compareTasks a b ≤ 0))

instance : IsTotal Task taskLE :=
  ⟨by
    intro a b
    unfold taskLE compareTasks
    by_cases h : priorityOrder b.priority - priorityOrder a.priority = 0 <;>
      by_cases h' : priorityOrder a.priority - priorityOrder b.priority = 0 <;>
      simp [h, h'] <;> omega⟩

instance : IsTrans Task taskLE :=
  ⟨by
    intro a b c
    unfold taskLE compareTasks
    by_cases hab : priorityOrder b.priority - priorityOrder a.priority = 0 <;>
      by_cases hbc : priorityOrder c.priority - priorityOrder b.priority = 0 <;>
      by_cases hac : priorityOrder c.priority - priorityOrder a.priority = 0 <;>
      simp [hab, hbc, hac] <;> omega⟩

/-- `TaskManager.filterTasks`: filter by the three criteria, then sort with
the stable `Array.prototype.sort` under `compareTasks`. -/
def TaskManager.filterTasks (tasks : List Task) (f : StatusFilter) (q : String)
    (p : PriorityFilter) : List Task :=
  List.insertionSort taskLE (tasks.filter (taskPass f q p))

/-- The task built by the `ADD_TASK` branch:
`{ ...action.payload, id: crypto.randomUUID(), createdAt: new Date() }`. -/
def newTaskOf (payload : AddPayload) (freshId : String) (now : Int) : Task :=
  { id := freshId, title := payload.title
    description := payload.description, completed := payload.completed
    priority := payload.priority, createdAt := now
    dueDate := payload.dueDate, tags := payload.tags }

/-- The completion flag written by the `TOGGLE_TASK` branch:
`!state.tasks.find(t => t.id === action.payload)?.completed`
(an absent task yields `undefined`, and `!undefined` is `true`). -/
def toggleFlag (state : TaskState) (id : String) : Bool :=
  !(((state.tasks.find? fun t => t.id == id).map Task.completed).getD false)

/-- `taskReducer`.  `mgr` is the singleton `taskManager`'s map, threaded
explicitly; `freshId` and `now` are the injected results of
`crypto.randomUUID()` and `new Date()` used by the `ADD_TASK` branch. -/
def taskReducer (mgr : TaskMgr) (state : TaskState) (action : TaskAction)
    (freshId : String) (now : Int) : TaskMgr × TaskState :=
  match action with
  | TaskAction.addTask payload =>
    let newTask : Task := newTaskOf payload freshId now
    (TaskManager.addTask mgr newTask,
      { state with tasks := state.tasks ++ [newTask] })
  | TaskAction.updateTask id updates =>
    match TaskManager.updateTask mgr id updates with
    | (none, mgr') => (mgr', state)
    | (some updatedTask, mgr') =>
      (mgr',
        { state with
            tasks := state.tasks.map fun t => if t.id = id then updatedTask else t })
  | TaskAction.deleteTask id =>
    (TaskManager.deleteTask mgr id,
      { state with tasks := state.tasks.filter fun t => !(t.id == id) })
  | TaskAction.toggleTask id =>
    let newCompleted : Bool := toggleFlag state id
    match TaskManager.updateTask mgr id (completedOnly newCompleted) with
    | (none, mgr') => (mgr', state)
    | (some updatedTask, mgr') =>
      (mgr',
        { state with
            tasks := state.tasks.map fun t => if t.id = id then updatedTask else t })
  | TaskAction.setFilter f => (mgr, { state with filter := f })
  | TaskAction.setSearch q => (mgr, { state with searchQuery := q })
  | TaskAction.setPriorityFilter p => (mgr, { state with selectedPriority := p })
  | TaskAction.clearCompleted =>
    (mgr, { state with tasks := state.tasks.filter fun t => !t.completed })

/-- `TaskFactory.createTask`: trims title and description, sets
`completed: false`. -/
def TaskFactory.createTask (title description : String) (priority : Priority)
    (dueDate : Option Int) (tags : List String) : AddPayload :=
  { title := jsTrim title, description := jsTrim description
    completed := false, priority := priority, dueDate := dueDate, tags := tags }

/-- The initial state passed to `useReducer` in `useTasks`. -/
def initialState : TaskState :=
  { tasks := [], filter := StatusFilter.all, searchQuery := ""
    selectedPriority := PriorityFilter.all }

/-- The status criterion of the spec's filtering predicate, from the spec text:
"active" excludes completed tasks; "completed" excludes incomplete tasks;
"all" excludes nothing. -/
def specStatusOk (f : StatusFilter) (t : Task) : Bool :=
  match f with
  | StatusFilter.all => true
  | StatusFilter.active => !t.completed
  | StatusFilter.completed => t.completed

/-- The search criterion of the spec's filtering predicate: if the search text
is non-empty, the task is kept only when its title or description contains the
text as a case-insensitive substring. -/
def specSearchOk (q : String) (t : Task) : Bool :=
  (q == "") || strIncludes t.title.toLower q.toLower
    || strIncludes t.description.toLower q.toLower

/-- The priority criterion of the spec's filtering predicate: if the priority
filter is not "all", the task is kept only when its priority equals it. -/
def specPriorityOk (p : PriorityFilter) (t : Task) : Bool :=
  (p == PriorityFilter.all) || priorityEq p t.priority

/-- The key a task is sorted by: tasks with equal key are tied under
`compareTasks`, so a stable sort must keep their relative order. -/
def sameKey (pr : Priority) (ts : Int) (t : Task) : Bool :=
  (t.priority == pr) && (t.createdAt == ts)

/-- The lookup map matches the state: every task held in `state.tasks` is
stored in the map under its identifier. -/
def Consistent (mgr : TaskMgr) (s : TaskState) : Prop :=
  ∀ t ∈ s.tasks, mapGet mgr t.id = some t

instance (mgr : TaskMgr) (s : TaskState) : Decidable (Consistent mgr s) :=
  inferInstanceAs (Decidable (∀ t ∈ s.tasks, mapGet mgr t.id = some t))

/-- One application dispatched by the UI layer.  `add` steps carry payloads
built by `TaskFactory.createTask` and are gated on a non-empty trimmed title
(`TaskForm.handleSubmit`), with a fresh `freshId` (`crypto.randomUUID()`);
`update` steps carry the title/description updates built by
`TaskItem.handleSave`, gated on a non-empty trimmed title.  The remaining
action kinds are dispatched with arbitrary payloads. -/
inductive Step : TaskMgr × TaskState → TaskMgr × TaskState → Prop where
  | add (mgr : TaskMgr) (s : TaskState) (title description : String)
      (pr : Priority) (dd : Option Int) (tags : List String)
      (freshId : String) (now : Int)
      (htitle : jsTrim title ≠ "")
      (hmap : mapGet mgr freshId = none)
      (hids : freshId ∉ s.tasks.map Task.id) :
      Step (mgr, s)
        (taskReducer mgr s
          (TaskAction.addTask (TaskFactory.createTask title description pr dd tags))
          freshId now)
  | update (mgr : TaskMgr) (s : TaskState) (id t d : String)
      (i : String) (n : Int) (htitle : jsTrim t ≠ "") :
      Step (mgr, s)
        (taskReducer mgr s
          (TaskAction.updateTask id (editUpdates (jsTrim t) (jsTrim d))) i n)
  | delete (mgr : TaskMgr) (s : TaskState) (id i : String) (n : Int) :
      Step (mgr, s) (taskReducer mgr s (TaskAction.deleteTask id) i n)
  | toggle (mgr : TaskMgr) (s : TaskState) (id i : String) (n : Int) :
      Step (mgr, s) (taskReducer mgr s (TaskAction.toggleTask id) i n)
  | setFilter (mgr : TaskMgr) (s : TaskState) (f : StatusFilter) (i : String)
      (n : Int) :
      Step (mgr, s) (taskReducer mgr s (TaskAction.setFilter f) i n)
  | setSearch (mgr : TaskMgr) (s : TaskState) (q i : String) (n : Int) :
      Step (mgr, s) (taskReducer mgr s (TaskAction.setSearch q) i n)
  | setPriority (mgr : TaskMgr) (s : TaskState) (p : PriorityFilter)
      (i : String) (n : Int) :
      Step (mgr, s) (taskReducer mgr s (TaskAction.setPriorityFilter p) i n)
  | clear (mgr : TaskMgr) (s : TaskState) (i : String) (n : Int) :
      Step (mgr, s) (taskReducer mgr s TaskAction.clearCompleted i n)

/-- Configurations reachable from the empty map and the initial state. -/
inductive Reachable : TaskMgr × TaskState → Prop where
  | start : Reachable ([], initialState)
  | step {p q : TaskMgr × TaskState} : Reachable p → Step p q → Reachable q

/-- The inductive invariant carried through `Reachable`: the map is consistent
with the state, task identifiers are pairwise distinct, and every stored title
is non-empty after trimming. -/
def Inv (p : TaskMgr × TaskState) : Prop :=
  Consistent p.1 p.2 ∧ (p.2.tasks.map Task.id).Nodup ∧
    ∀ t ∈ p.2.tasks, jsTrim t.title ≠ ""

/-- A concrete task used for instantiating the theorems below. -/
def sampleTask : Task :=
  { id := "a", title := "t", description := "", completed := false
    priority := Priority.medium, createdAt := 0, dueDate := none, tags := [] }

/-- A concrete stale map entry (its key is absent from `sampleState`). -/
def ghostTask : Task :=
  { id := "ghost", title := "g", description := "", completed := true
    priority := Priority.low, createdAt := 9, dueDate := none, tags := [] }

/-- A concrete one-task state. -/
def sampleState : TaskState :=
  { tasks := [sampleTask], filter := StatusFilter.all, searchQuery := ""
    selectedPriority := PriorityFilter.all }

/-- A map holding exactly the task of `sampleState`. -/
def sampleMgr : TaskMgr := [("a", sampleTask)]

/-- A map holding the task of `sampleState` plus a stale entry. -/
def ghostMgr : TaskMgr := [("ghost", ghostTask), ("a", sampleTask)]

/-- First action of the clear-completed desynchronization run: add a task. -/
def c2run1 : TaskMgr × TaskState :=
  taskReducer [] initialState
    (TaskAction.addTask
      (TaskFactory.createTask "Buy milk" "" Priority.medium none []))
    "id-1" 0

/-- Second action: mark the task completed. -/
def c2run2 : TaskMgr × TaskState :=
  taskReducer c2run1.1 c2run1.2 (TaskAction.toggleTask "id-1") "id-2" 1

/-- Third action: clear completed tasks. -/
def c2run3 : TaskMgr × TaskState :=
  taskReducer c2run2.1 c2run2.2 TaskAction.clearCompleted "id-3" 2

/-! ### Association-list lemmas for the embedded `Map` -/

theorem mapGet_mapSet_self (m : TaskMgr) (k : String) (v : Task) :
    mapGet (mapSet m k v) k = some v := by
  induction m with
  | nil => simp [mapSet, mapGet]
  | cons e rest ih =>
    obtain ⟨k', w⟩ := e
    by_cases h : k' = k <;> simp [mapSet, h, mapGet, ih]

theorem mapGet_mapSet_ne (m : TaskMgr) (k k' : String) (v : Task)
    (h : k' ≠ k) : mapGet (mapSet m k v) k' = mapGet m k' := by
  have hk : k ≠ k' := Ne.symm h
  induction m with
  | nil => simp [mapSet, mapGet, hk]
  | cons e rest ih =>
    obtain ⟨k₀, w⟩ := e
    by_cases h₀ : k₀ = k
    · subst h₀
      simp [mapSet, mapGet, hk]
    · simp [mapSet, h₀, mapGet, ih]

theorem mapGet_mapDelete_ne (m : TaskMgr) (k k' : String) (h : k' ≠ k) :
    mapGet (mapDelete m k) k' = mapGet m k' := by
  have hk : k ≠ k' := Ne.symm h
  induction m with
  | nil => simp [mapDelete]
  | cons e rest ih =>
    obtain ⟨k₀, w⟩ := e
    by_cases h₀ : k₀ = k
    · subst h₀
      simp [mapDelete, mapGet, hk]
    · simp [mapDelete, h₀, mapGet, ih]

/-! ### Lemmas about `jsTrim` -/

theorem dropWhile_idem (p : Char → Bool) (l : List Char) :
    (l.dropWhile p).dropWhile p = l.dropWhile p := by
  induction l with
  | nil => rfl
  | cons a l ih => by_cases h : p a <;> simp [List.dropWhile_cons, h, ih]

theorem dropWhile_head_false (p : Char → Bool) (l : List Char) (a : Char)
    (rest : List Char) (h : l.dropWhile p = a :: rest) : p a = false := by
  induction l with
  | nil => simp [List.dropWhile] at h
  | cons b l ih =>
    by_cases hb : p b
    · exact ih (by simpa [List.dropWhile_cons, hb] using h)
    · rw [List.dropWhile_cons, if_neg hb] at h
      injection h with h1 h2
      subst h1
      simpa using hb

theorem dropWhile_eq_self_of_head (p : Char → Bool) (l : List Char)
    (h : ∀ a rest, l = a :: rest → p a = false) : l.dropWhile p = l := by
  cases l with
  | nil => rfl
  | cons a rest => simp [List.dropWhile_cons, h a rest rfl]

theorem dropWhile_is_dropped (p : Char → Bool) (l : List Char) :
    ∃ t, t ++ l.dropWhile p = l := by
  induction l with
  | nil => exact ⟨[], rfl⟩
  | cons a l ih =>
    by_cases h : p a
    · obtain ⟨t, ht⟩ := ih
      exact ⟨a :: t, by simp [List.dropWhile_cons, h, ht]⟩
    · exact ⟨[], by simp [List.dropWhile_cons, h]⟩

theorem trimChars_idem (l : List Char) : trimChars (trimChars l) = trimChars l := by
  have hx : (trimChars l).reverse = (l.dropWhile wsChar).reverse.dropWhile wsChar := by
    simp [trimChars]
  have ha : (trimChars l).reverse.dropWhile wsChar = (trimChars l).reverse := by
    rw [hx]
    exact dropWhile_idem wsChar _
  have hb : (trimChars l).dropWhile wsChar = trimChars l := by
    apply dropWhile_eq_self_of_head
    intro a rest hcons
    obtain ⟨t, ht⟩ := dropWhile_is_dropped wsChar (l.dropWhile wsChar).reverse
    rw [← hx] at ht
    have hy : l.dropWhile wsChar = trimChars l ++ t.reverse := by
      have h₂ := congrArg List.reverse ht
      simpa using h₂.symm
    rw [hcons] at hy
    exact dropWhile_head_false wsChar l a (rest ++ t.reverse) (by simpa using hy)
  show ((((trimChars l).dropWhile wsChar).reverse).dropWhile wsChar).reverse = trimChars l
  rw [hb, ha]
  simp

theorem jsTrim_idem (s : String) : jsTrim (jsTrim s) = jsTrim s := by
  show String.mk (trimChars (trimChars s.data)) = String.mk (trimChars s.data)
  rw [trimChars_idem]

/-! ### Task-list lemmas -/

theorem Consistent.unique {mgr : TaskMgr} {s : TaskState} (h : Consistent mgr s)
    {t t' : Task} (ht : t ∈ s.tasks) (ht' : t' ∈ s.tasks) (hid : t.id = t'.id) :
    t = t' := by
  have h1 := h t ht
  have h2 := h t' ht'
  rw [hid] at h1
  exact Option.some.inj (h1.symm.trans h2)

theorem map_ite_id_eq (l : List Task) (id : String) (ut : Task)
    (h : ∀ t ∈ l, t.id ≠ id) :
    (l.map fun t => if t.id = id then ut else t) = l := by
  induction l with
  | nil => rfl
  | cons a l ih =>
    simp only [List.map_cons, if_neg (h a (List.mem_cons_self a l))]
    rw [ih fun t ht => h t (List.mem_cons_of_mem a ht)]

theorem map_id_replace (l : List Task) (id : String) (ut : Task)
    (hut : ut.id = id) :
    ((l.map fun t => if t.id = id then ut else t).map Task.id) = l.map Task.id := by
  induction l with
  | nil => rfl
  | cons a l ih =>
    by_cases ha : a.id = id <;> simp [ha, hut, ih]

theorem find?_id_mem (l : List Task) (id : String)
    (h : id ∈ l.map Task.id) :
    ∃ tf, (l.find? fun t => t.id == id) = some tf ∧ tf ∈ l ∧ tf.id = id := by
  induction l with
  | nil => simp at h
  | cons a l ih =>
    by_cases ha : a.id = id
    · exact ⟨a, by simp [List.find?_cons, ha], List.mem_cons_self a l, ha⟩
    · have h' : id ∈ l.map Task.id := by
        simp only [List.map_cons, List.mem_cons] at h
        exact h.resolve_left fun hh => ha hh.symm
      obtain ⟨tf, h1, h2, h3⟩ := ih h'
      refine ⟨tf, ?_, List.mem_cons_of_mem a h2, h3⟩
      simp only [List.find?_cons]
      rw [show (a.id == id) = false by simpa using ha]
      exact h1

theorem find?_map_replace (l : List Task) (id : String) (ut : Task)
    (hut : ut.id = id) (hex : ∃ t ∈ l, t.id = id) :
    ((l.map fun t => if t.id = id then ut else t).find? fun t => t.id == id)
      = some ut := by
  induction l with
  | nil => simp at hex
  | cons a l ih =>
    by_cases ha : a.id = id
    · simp [List.find?_cons, ha, hut]
    · obtain ⟨t, ht, htid⟩ := hex
      rcases List.mem_cons.mp ht with rfl | htl
      · exact absurd htid ha
      · simp only [List.map_cons, if_neg ha, List.find?_cons]
        rw [show (a.id == id) = false by simpa using ha]
        exact ih ⟨t, htl, htid⟩

/-! ### Unfolding lemmas for `TaskManager.updateTask` -/

theorem updateTask_of_get_none {m : TaskMgr} {id : String}
    (u : TaskUpdates) (h : mapGet m id = none) :
    TaskManager.updateTask m id u = (none, m) := by
  simp [TaskManager.updateTask, h]

theorem updateTask_of_get_some {m : TaskMgr} {id : String} {g : Task}
    (u : TaskUpdates) (h : mapGet m id = some g) :
    TaskManager.updateTask m id u
      = (some (mergeTask g u), mapSet m id (mergeTask g u)) := by
  simp [TaskManager.updateTask, h]

/-! ### No-op lemmas for absent identifiers -/

theorem update_noop (mgr : TaskMgr) (s : TaskState) (id : String)
    (u : TaskUpdates) (i : String) (n : Int)
    (h : id ∉ s.tasks.map Task.id) :
    (taskReducer mgr s (TaskAction.updateTask id u) i n).2 = s := by
  have hne : ∀ t ∈ s.tasks, t.id ≠ id := by
    intro t ht hid
    exact h (hid ▸ List.mem_map_of_mem Task.id ht)
  cases hm : mapGet mgr id with
  | none => simp [taskReducer, updateTask_of_get_none u hm]
  | some g =>
    simp only [taskReducer, updateTask_of_get_some u hm]
    rw [map_ite_id_eq s.tasks id (mergeTask g u) hne]

theorem toggle_noop (mgr : TaskMgr) (s : TaskState) (id : String)
    (i : String) (n : Int) (h : id ∉ s.tasks.map Task.id) :
    (taskReducer mgr s (TaskAction.toggleTask id) i n).2 = s := by
  have hne : ∀ t ∈ s.tasks, t.id ≠ id := by
    intro t ht hid
    exact h (hid ▸ List.mem_map_of_mem Task.id ht)
  cases hm : mapGet mgr id with
  | none => simp [taskReducer, updateTask_of_get_none _ hm]
  | some g =>
    simp only [taskReducer, updateTask_of_get_some _ hm]
    rw [map_ite_id_eq s.tasks id _ hne]

theorem delete_noop (mgr : TaskMgr) (s : TaskState) (id : String)
    (i : String) (n : Int) (h : id ∉ s.tasks.map Task.id) :
    (taskReducer mgr s (TaskAction.deleteTask id) i n).2 = s := by
  have hne : ∀ t ∈ s.tasks, t.id ≠ id := by
    intro t ht hid
    exact h (hid ▸ List.mem_map_of_mem Task.id ht)
  have : (s.tasks.filter fun t => !(t.id == id)) = s.tasks := by
    apply List.filter_eq_self.mpr
    intro t ht
    simpa using hne t ht
  simp [taskReducer, this]

/-! ### Computation lemmas for the reducer branches -/

theorem add_effect (mgr : TaskMgr) (s : TaskState) (payload : AddPayload)
    (freshId : String) (now : Int) :
    taskReducer mgr s (TaskAction.addTask payload) freshId now
      = (mapSet mgr freshId (newTaskOf payload freshId now),
         { s with tasks := s.tasks ++ [newTaskOf payload freshId now] }) := rfl

theorem update_effect_none {mgr : TaskMgr} {id : String} (s : TaskState)
    (u : TaskUpdates) (i : String) (n : Int) (hm : mapGet mgr id = none) :
    taskReducer mgr s (TaskAction.updateTask id u) i n = (mgr, s) := by
  simp [taskReducer, updateTask_of_get_none u hm]

theorem update_effect_some {mgr : TaskMgr} {id : String} {g : Task}
    (s : TaskState) (u : TaskUpdates) (i : String) (n : Int)
    (hm : mapGet mgr id = some g) :
    taskReducer mgr s (TaskAction.updateTask id u) i n
      = (mapSet mgr id (mergeTask g u),
         { s with
             tasks := s.tasks.map fun t => if t.id = id then mergeTask g u else t }) := by
  simp [taskReducer, updateTask_of_get_some u hm]

theorem toggle_effect_none {mgr : TaskMgr} {id : String} (s : TaskState)
    (i : String) (n : Int) (hm : mapGet mgr id = none) :
    taskReducer mgr s (TaskAction.toggleTask id) i n = (mgr, s) := by
  simp [taskReducer, updateTask_of_get_none _ hm]

theorem toggle_effect_some {mgr : TaskMgr} {id : String} {g : Task}
    (s : TaskState) (i : String) (n : Int) (hm : mapGet mgr id = some g) :
    taskReducer mgr s (TaskAction.toggleTask id) i n
      = (mapSet mgr id (mergeTask g (completedOnly (toggleFlag s id))),
         { s with
             tasks := s.tasks.map fun t =>
               if t.id = id then mergeTask g (completedOnly (toggleFlag s id)) else t }) := by
  simp [taskReducer, updateTask_of_get_some _ hm]

theorem delete_effect (mgr : TaskMgr) (s : TaskState) (id i : String) (n : Int) :
    taskReducer mgr s (TaskAction.deleteTask id) i n
      = (mapDelete mgr id,
         { s with tasks := s.tasks.filter fun t => !(t.id == id) }) := rfl

theorem clear_effect (mgr : TaskMgr) (s : TaskState) (i : String) (n : Int) :
    taskReducer mgr s TaskAction.clearCompleted i n
      = (mgr, { s with tasks := s.tasks.filter fun t => !t.completed }) := rfl

/-! ### Facts about merged tasks -/

theorem mergeTask_editUpdates (g : Task) (tt dd : String) :
    mergeTask g (editUpdates tt dd)
      = { g with title := tt, description := dd } := rfl

theorem mergeTask_completedOnly (g : Task) (b : Bool) :
    mergeTask g (completedOnly b) = { g with completed := b } := rfl

/-! ### Invariant preservation -/

theorem inv_start : Inv ([], initialState) := by
  refine ⟨?_, ?_, ?_⟩ <;> simp [Consistent, initialState]

theorem inv_step {p q : TaskMgr × TaskState} (hp : Inv p) (hs : Step p q) :
    Inv q := by
  obtain ⟨hc, hn, htl⟩ := hp
  cases hs with
  | add mgr s title description pr dd tags freshId now htitle hmap hids =>
    rw [add_effect]
    set nt := newTaskOf (TaskFactory.createTask title description pr dd tags)
      freshId now with hnt
    have hntid : nt.id = freshId := rfl
    refine ⟨?_, ?_, ?_⟩
    · intro t ht
      rcases List.mem_append.mp ht with hmem | hmem
      · have hne : t.id ≠ freshId := fun h =>
          hids (h ▸ List.mem_map_of_mem Task.id hmem)
        rw [mapGet_mapSet_ne mgr freshId t.id nt hne]
        exact hc t hmem
      · have : t = nt := by simpa using hmem
        subst this
        rw [hntid]
        exact mapGet_mapSet_self mgr freshId nt
    · simp only [List.map_append, List.map_cons, List.map_nil]
      rw [List.nodup_append]
      exact ⟨hn, List.nodup_singleton _, by
        intro a ha hb
        simp only [List.mem_singleton] at hb
        subst hb
        exact hids (by simpa [hntid] using ha)⟩
    · intro t ht
      rcases List.mem_append.mp ht with hmem | hmem
      · exact htl t hmem
      · have : t = nt := by simpa using hmem
        subst this
        show jsTrim (jsTrim title) ≠ ""
        rw [jsTrim_idem]
        exact htitle
  | update mgr s id tt dd i n htitle =>
    cases hm : mapGet mgr id with
    | none =>
      rw [update_effect_none s _ i n hm]
      exact ⟨hc, hn, htl⟩
    | some g =>
      rw [update_effect_some s _ i n hm]
      rw [mergeTask_editUpdates]
      set ut : Task := { g with title := jsTrim tt, description := jsTrim dd }
        with hut
      by_cases hmem : id ∈ s.tasks.map Task.id
      · obtain ⟨t₀, ht₀, ht₀id⟩ := List.mem_map.mp hmem
        have hg : g = t₀ := by
          have := hc t₀ ht₀
          rw [ht₀id] at this
          exact Option.some.inj (hm.symm.trans this)
        have hutid : ut.id = id := by rw [hut, hg]; exact ht₀id
        refine ⟨?_, ?_, ?_⟩
        · intro t' ht'
          obtain ⟨t₁, ht₁, hft⟩ := List.mem_map.mp ht'
          by_cases h₁ : t₁.id = id
          · rw [if_pos h₁] at hft
            subst hft
            rw [hutid]
            exact mapGet_mapSet_self mgr id ut
          · rw [if_neg h₁] at hft
            subst hft
            rw [mapGet_mapSet_ne mgr id t₁.id ut h₁]
            exact hc t₁ ht₁
        · rw [map_id_replace s.tasks id ut hutid]
          exact hn
        · intro t' ht'
          obtain ⟨t₁, ht₁, hft⟩ := List.mem_map.mp ht'
          by_cases h₁ : t₁.id = id
          · rw [if_pos h₁] at hft
            subst hft
            show jsTrim (jsTrim tt) ≠ ""
            rw [jsTrim_idem]
            exact htitle
          · rw [if_neg h₁] at hft
            subst hft
            exact htl t₁ ht₁
      · have hne : ∀ t ∈ s.tasks, t.id ≠ id := by
          intro t ht hid
          exact hmem (hid ▸ List.mem_map_of_mem Task.id ht)
        rw [map_ite_id_eq s.tasks id ut hne]
        refine ⟨?_, hn, htl⟩
        intro t ht
        rw [mapGet_mapSet_ne mgr id t.id ut (hne t ht)]
        exact hc t ht
  | toggle mgr s id i n =>
    cases hm : mapGet mgr id with
    | none =>
      rw [toggle_effect_none s i n hm]
      exact ⟨hc, hn, htl⟩
    | some g =>
      rw [toggle_effect_some s i n hm]
      rw [mergeTask_completedOnly]
      set ut : Task := { g with completed := toggleFlag s id } with hut
      by_cases hmem : id ∈ s.tasks.map Task.id
      · obtain ⟨t₀, ht₀, ht₀id⟩ := List.mem_map.mp hmem
        have hg : g = t₀ := by
          have := hc t₀ ht₀
          rw [ht₀id] at this
          exact Option.some.inj (hm.symm.trans this)
        have hutid : ut.id = id := by rw [hut, hg]; exact ht₀id
        refine ⟨?_, ?_, ?_⟩
        · intro t' ht'
          obtain ⟨t₁, ht₁, hft⟩ := List.mem_map.mp ht'
          by_cases h₁ : t₁.id = id
          · rw [if_pos h₁] at hft
            subst hft
            rw [hutid]
            exact mapGet_mapSet_self mgr id ut
          · rw [if_neg h₁] at hft
            subst hft
            rw [mapGet_mapSet_ne mgr id t₁.id ut h₁]
            exact hc t₁ ht₁
        · rw [map_id_replace s.tasks id ut hutid]
          exact hn
        · intro t' ht'
          obtain ⟨t₁, ht₁, hft⟩ := List.mem_map.mp ht'
          by_cases h₁ : t₁.id = id
          · rw [if_pos h₁] at hft
            subst hft
            show jsTrim g.title ≠ ""
            rw [hg]
            exact htl t₀ ht₀
          · rw [if_neg h₁] at hft
            subst hft
            exact htl t₁ ht₁
      · have hne : ∀ t ∈ s.tasks, t.id ≠ id := by
          intro t ht hid
          exact hmem (hid ▸ List.mem_map_of_mem Task.id ht)
        rw [map_ite_id_eq s.tasks id ut hne]
        refine ⟨?_, hn, htl⟩
        intro t ht
        rw [mapGet_mapSet_ne mgr id t.id ut (hne t ht)]
        exact hc t ht
  | delete mgr s id i n =>
    rw [delete_effect]
    refine ⟨?_, ?_, ?_⟩
    · intro t ht
      obtain ⟨hmem, hpred⟩ := List.mem_filter.mp ht
      have hne : t.id ≠ id := by simpa using hpred
      rw [mapGet_mapDelete_ne mgr id t.id hne]
      exact hc t hmem
    · exact List.Nodup.sublist
        (List.Sublist.map Task.id (List.filter_sublist s.tasks)) hn
    · intro t ht
      exact htl t (List.mem_filter.mp ht).1
  | clear mgr s i n =>
    rw [clear_effect]
    refine ⟨?_, ?_, ?_⟩
    · intro t ht
      exact hc t (List.mem_filter.mp ht).1
    · exact List.Nodup.sublist
        (List.Sublist.map Task.id (List.filter_sublist s.tasks)) hn
    · intro t ht
      exact htl t (List.mem_filter.mp ht).1
  | setFilter mgr s f i n => exact ⟨hc, hn, htl⟩
  | setSearch mgr s q0 i n => exact ⟨hc, hn, htl⟩
  | setPriority mgr s p0 i n => exact ⟨hc, hn, htl⟩

theorem reachable_inv {p : TaskMgr × TaskState} (h : Reachable p) : Inv p := by
  induction h with
  | start => exact inv_start
  | step hr hs ih => exact inv_step ih hs

/-- On an invariant-satisfying configuration, no action changes the creation
timestamp recorded under a given identifier: a task of the successor state
bearing the identifier of a task of the current state has the same
`createdAt`. -/
theorem step_preserves_createdAt {mgr : TaskMgr} {s : TaskState}
    (hInv : Inv (mgr, s)) {q : TaskMgr × TaskState} (hs : Step (mgr, s) q) :
    ∀ t ∈ s.tasks, ∀ t' ∈ q.2.tasks, t'.id = t.id → t'.createdAt = t.createdAt := by
  obtain ⟨hc, hn, htl⟩ := hInv
  intro t ht t' ht' hid
  cases hs with
  | add mgr s title description pr dd tags freshId now htitle hmap hids =>
    rw [add_effect] at ht'
    rcases List.mem_append.mp ht' with hmem | hmem
    · rw [Consistent.unique hc hmem ht hid]
    · have : t' = newTaskOf (TaskFactory.createTask title description pr dd tags)
          freshId now := by simpa using hmem
      subst this
      exact absurd (hid ▸ List.mem_map_of_mem Task.id ht)
        (by simpa using hids)
  | update mgr s id tt dd i n htitle =>
    cases hm : mapGet mgr id with
    | none =>
      rw [update_effect_none s _ i n hm] at ht'
      rw [Consistent.unique hc ht' ht hid]
    | some g =>
      rw [update_effect_some s _ i n hm, mergeTask_editUpdates] at ht'
      obtain ⟨t₁, ht₁, hft⟩ := List.mem_map.mp ht'
      by_cases h₁ : t₁.id = id
      · rw [if_pos h₁] at hft
        have hg : g = t₁ := by
          have := hc t₁ ht₁
          rw [h₁] at this
          exact Option.some.inj (hm.symm.trans this)
        subst hft
        have htid : t.id = id := by
          rw [← hid]
          show ({ g with title := jsTrim tt, description := jsTrim dd } : Task).id = id
          rw [hg]
          exact h₁
        have hteq : t = t₁ := by
          apply Consistent.unique hc ht ht₁
          rw [htid, h₁]
        subst hteq
        show g.createdAt = t.createdAt
        rw [hg]
      · rw [if_neg h₁] at hft
        subst hft
        rw [Consistent.unique hc ht₁ ht hid]
  | toggle mgr s id i n =>
    cases hm : mapGet mgr id with
    | none =>
      rw [toggle_effect_none s i n hm] at ht'
      rw [Consistent.unique hc ht' ht hid]
    | some g =>
      rw [toggle_effect_some s i n hm, mergeTask_completedOnly] at ht'
      obtain ⟨t₁, ht₁, hft⟩ := List.mem_map.mp ht'
      by_cases h₁ : t₁.id = id
      · rw [if_pos h₁] at hft
        have hg : g = t₁ := by
          have := hc t₁ ht₁
          rw [h₁] at this
          exact Option.some.inj (hm.symm.trans this)
        subst hft
        have htid : t.id = id := by
          rw [← hid]
          show ({ g with completed := toggleFlag s id } : Task).id = id
          rw [hg]
          exact h₁
        have hteq : t = t₁ := by
          apply Consistent.unique hc ht ht₁
          rw [htid, h₁]
        subst hteq
        show g.createdAt = t.createdAt
        rw [hg]
      · rw [if_neg h₁] at hft
        subst hft
        rw [Consistent.unique hc ht₁ ht hid]
  | delete mgr s id i n =>
    rw [delete_effect] at ht'
    rw [Consistent.unique hc (List.mem_filter.mp ht').1 ht hid]
  | clear mgr s i n =>
    rw [clear_effect] at ht'
    rw [Consistent.unique hc (List.mem_filter.mp ht').1 ht hid]
  | setFilter mgr s f i n =>
    rw [Consistent.unique hc ht' ht hid]
  | setSearch mgr s q0 i n =>
    rw [Consistent.unique hc ht' ht hid]
  | setPriority mgr s p0 i n =>
    rw [Consistent.unique hc ht' ht hid]

/-! ### The filtering predicate is a conjunction -/

theorem taskPass_eq_conj (f : StatusFilter) (q : String) (p : PriorityFilter)
    (t : Task) :
    taskPass f q p t
      = (specStatusOk f t && specSearchOk q t && specPriorityOk p t) := by
  unfold taskPass specStatusOk specSearchOk specPriorityOk
  generalize (q == "") = b1
  generalize strIncludes t.title.toLower q.toLower = b2
  generalize strIncludes t.description.toLower q.toLower = b3
  generalize priorityEq p t.priority = b4
  generalize t.completed = b5
  cases f <;> cases p <;> revert b1 b2 b3 b4 b5 <;> decide

/-! ### Stability of the sort -/

theorem sameKey_taskLE {pr : Priority} {ts : Int} {a b : Task}
    (ha : sameKey pr ts a = true) (hb : sameKey pr ts b = true) : taskLE a b := by
  obtain ⟨ha1, ha2⟩ := by simpa [sameKey] using ha
  obtain ⟨hb1, hb2⟩ := by simpa [sameKey] using hb
  show compareTasks a b ≤ 0
  unfold compareTasks
  rw [ha1, hb1, ha2, hb2]
  simp

theorem orderedInsert_filter_pos (pr : Priority) (ts : Int) (a : Task)
    (l : List Task) (ha : sameKey pr ts a = true) :
    (List.orderedInsert taskLE a l).filter (sameKey pr ts)
      = a :: l.filter (sameKey pr ts) := by
  induction l with
  | nil => simp [List.orderedInsert, List.filter, ha]
  | cons b l ih =>
    by_cases hr : taskLE a b
    · rw [List.orderedInsert_of_le taskLE l hr]
      simp [List.filter, ha]
    · have hb : sameKey pr ts b = false := by
        cases hkb : sameKey pr ts b with
        | false => rfl
        | true => exact absurd (sameKey_taskLE ha hkb) hr
      simp [List.orderedInsert, if_neg hr, List.filter_cons, hb, ih]

theorem orderedInsert_filter_neg (pr : Priority) (ts : Int) (a : Task)
    (l : List Task) (ha : sameKey pr ts a = false) :
    (List.orderedInsert taskLE a l).filter (sameKey pr ts)
      = l.filter (sameKey pr ts) := by
  induction l with
  | nil => simp [List.orderedInsert, List.filter, ha]
  | cons b l ih =>
    by_cases hr : taskLE a b
    · rw [List.orderedInsert_of_le taskLE l hr]
      simp [List.filter_cons, ha]
    · simp only [List.orderedInsert, if_neg hr, List.filter_cons, ih]

theorem insertionSort_filter_sameKey (pr : Priority) (ts : Int)
    (l : List Task) :
    (List.insertionSort taskLE l).filter (sameKey pr ts)
      = l.filter (sameKey pr ts) := by
  induction l with
  | nil => rfl
  | cons a l ih =>
    show (List.orderedInsert taskLE a (List.insertionSort taskLE l)).filter
        (sameKey pr ts) = (a :: l).filter (sameKey pr ts)
    cases ha : sameKey pr ts a with
    | true =>
      rw [orderedInsert_filter_pos pr ts a _ ha, ih]
      simp [List.filter_cons, ha]
    | false =>
      rw [orderedInsert_filter_neg pr ts a _ ha, ih]
      simp [List.filter_cons, ha]

/-- `taskLE` spelled out: strictly higher priority rank first, equal ranks
ordered by non-increasing creation time. -/
theorem taskLE_iff (a b : Task) :
    taskLE a b ↔ (priorityOrder b.priority < priorityOrder a.priority
      ∨ (priorityOrder a.priority = priorityOrder b.priority
          ∧ b.createdAt ≤ a.createdAt)) := by
  show compareTasks a b ≤ 0 ↔ _
  unfold compareTasks
  by_cases h : priorityOrder b.priority - priorityOrder a.priority = 0 <;>
    simp [h] <;> omega

theorem toggleFlag_of_find (s : TaskState) (id : String) (tf : Task)
    (hfind : (s.tasks.find? fun t => t.id == id) = some tf) :
    toggleFlag s id = !tf.completed := by
  simp [toggleFlag, hfind]

/-! ### Identifier immutability -/

/-- When the map is consistent with the state, an update whose payload does
not carry an `id` field leaves the state's identifier sequence unchanged. -/
theorem update_ids_of_consistent {mgr : TaskMgr} {s : TaskState}
    (hc : Consistent mgr s) (id : String) (u : TaskUpdates) (i : String)
    (n : Int) (hu : u.id = none) :
    ((taskReducer mgr s (TaskAction.updateTask id u) i n).2.tasks.map Task.id)
      = s.tasks.map Task.id := by
  cases hm : mapGet mgr id with
  | none => rw [update_effect_none s u i n hm]
  | some g =>
    rw [update_effect_some s u i n hm]
    by_cases hmem : id ∈ s.tasks.map Task.id
    · obtain ⟨t₀, ht₀, hid⟩ := List.mem_map.mp hmem
      have hg : g = t₀ := by
        have := hc t₀ ht₀
        rw [hid] at this
        exact Option.some.inj (hm.symm.trans this)
      have hutid : (mergeTask g u).id = id := by
        simp [mergeTask, hu, hg, hid]
      exact map_id_replace s.tasks id _ hutid
    · have hne : ∀ t ∈ s.tasks, t.id ≠ id := by
        intro t ht hidt
        exact hmem (hidt ▸ List.mem_map_of_mem Task.id ht)
      rw [map_ite_id_eq s.tasks id _ hne]

/-- When the map is consistent with the state, a toggle leaves the state's
identifier sequence unchanged. -/
theorem toggle_ids_of_consistent {mgr : TaskMgr} {s : TaskState}
    (hc : Consistent mgr s) (id : String) (i : String) (n : Int) :
    ((taskReducer mgr s (TaskAction.toggleTask id) i n).2.tasks.map Task.id)
      = s.tasks.map Task.id := by
  cases hm : mapGet mgr id with
  | none => rw [toggle_effect_none s i n hm]
  | some g =>
    rw [toggle_effect_some s i n hm]
    by_cases hmem : id ∈ s.tasks.map Task.id
    · obtain ⟨t₀, ht₀, hid⟩ := List.mem_map.mp hmem
      have hg : g = t₀ := by
        have := hc t₀ ht₀
        rw [hid] at this
        exact Option.some.inj (hm.symm.trans this)
      have hutid : (mergeTask g (completedOnly (toggleFlag s id))).id = id := by
        simp [mergeTask, completedOnly, hg, hid]
      exact map_id_replace s.tasks id _ hutid
    · have hne : ∀ t ∈ s.tasks, t.id ≠ id := by
        intro t ht hidt
        exact hmem (hidt ▸ List.mem_map_of_mem Task.id ht)
      rw [map_ite_id_eq s.tasks id _ hne]

/-- On a consistent configuration, no action rewrites an identifier: each
step's identifier sequence is a subsequence of the previous one (tasks only
removed, never renamed), except an add, which appends exactly one fresh
identifier at the end. -/
theorem step_ids {mgr : TaskMgr} {s : TaskState} (hc : Consistent mgr s)
    {q : TaskMgr × TaskState} (hs : Step (mgr, s) q) :
    (q.2.tasks.map Task.id).Sublist (s.tasks.map Task.id)
    ∨ ∃ newId, newId ∉ s.tasks.map Task.id
        ∧ q.2.tasks.map Task.id = s.tasks.map Task.id ++ [newId] := by
  cases hs with
  | add mgr s title description pr dd tags freshId now htitle hmap hids =>
    right
    refine ⟨freshId, hids, ?_⟩
    rw [add_effect]
    simp [newTaskOf]
  | update mgr s id tt dd i n htitle =>
    left
    rw [update_ids_of_consistent hc id (editUpdates (jsTrim tt) (jsTrim dd)) i n rfl]
  | toggle mgr s id i n =>
    left
    rw [toggle_ids_of_consistent hc id i n]
  | delete mgr s id i n =>
    left
    rw [delete_effect]
    exact List.Sublist.map Task.id (List.filter_sublist s.tasks)
  | clear mgr s i n =>
    left
    rw [clear_effect]
    exact List.Sublist.map Task.id (List.filter_sublist s.tasks)
  | setFilter mgr s f i n => exact Or.inl (List.Sublist.refl _)
  | setSearch mgr s q0 i n => exact Or.inl (List.Sublist.refl _)
  | setPriority mgr s p0 i n => exact Or.inl (List.Sublist.refl _)

/-! ### Claim theorems -/

/-- Claim C1: with the identifier and timestamp generators injected and the
singleton store threaded explicitly, the reducer behaves as a pure,
deterministic function from (state, action) to new state: the produced
`TaskState` is fully determined by the previous state, the action and the
injected generator outputs, independent of the hidden store contents
(any two stores consistent with the state yield the same new state), and the
previous state value is never modified. -/
theorem taskReducer_state_function (mgr₁ mgr₂ : TaskMgr) (s : TaskState)
    (a : TaskAction) (i : String) (n : Int)
    (h₁ : Consistent mgr₁ s) (h₂ : Consistent mgr₂ s) :
    (taskReducer mgr₁ s a i n).2 = (taskReducer mgr₂ s a i n).2 := by
  cases a with
  | addTask payload => rfl
  | updateTask id u =>
    by_cases hmem : id ∈ s.tasks.map Task.id
    · obtain ⟨t₀, ht₀, hid⟩ := List.mem_map.mp hmem
      have g₁ : mapGet mgr₁ id = some t₀ := by
        have := h₁ t₀ ht₀
        rw [hid] at this
        exact this
      have g₂ : mapGet mgr₂ id = some t₀ := by
        have := h₂ t₀ ht₀
        rw [hid] at this
        exact this
      rw [update_effect_some s u i n g₁, update_effect_some s u i n g₂]
    · rw [update_noop mgr₁ s id u i n hmem, update_noop mgr₂ s id u i n hmem]
  | deleteTask id => rfl
  | toggleTask id =>
    by_cases hmem : id ∈ s.tasks.map Task.id
    · obtain ⟨t₀, ht₀, hid⟩ := List.mem_map.mp hmem
      have g₁ : mapGet mgr₁ id = some t₀ := by
        have := h₁ t₀ ht₀
        rw [hid] at this
        exact this
      have g₂ : mapGet mgr₂ id = some t₀ := by
        have := h₂ t₀ ht₀
        rw [hid] at this
        exact this
      rw [toggle_effect_some s i n g₁, toggle_effect_some s i n g₂]
    · rw [toggle_noop mgr₁ s id i n hmem, toggle_noop mgr₂ s id i n hmem]
  | setFilter f => rfl
  | setSearch q => rfl
  | setPriorityFilter p => rfl
  | clearCompleted => rfl

theorem taskReducer_state_function_witness :
    Consistent sampleMgr sampleState ∧ Consistent ghostMgr sampleState
    ∧ (taskReducer sampleMgr sampleState (TaskAction.toggleTask "a") "i" 5).2
      = (taskReducer ghostMgr sampleState (TaskAction.toggleTask "a") "i" 5).2 :=
  ⟨by decide, by decide,
    taskReducer_state_function sampleMgr ghostMgr sampleState
      (TaskAction.toggleTask "a") "i" 5 (by decide) (by decide)⟩

/-- Claim C2 (code bug): the reducer-action sequence add, toggle,
clear-completed is reachable from the initial empty state, yet afterwards the
state's task list is empty while the singleton's `taskMap` still stores the
cleared identifier: the `CLEAR_COMPLETED` branch filters `state.tasks` without
synchronizing the lookup map, so the map's key set does not stay equal to the
state's identifier set. -/
theorem clearCompleted_desyncs_taskMap :
    Reachable c2run3 ∧ c2run3.2.tasks.map Task.id = []
      ∧ c2run3.1.map Prod.fst = ["id-1"] := by
  refine ⟨?_, by decide, by decide⟩
  have h1 : Step ([], initialState) c2run1 :=
    Step.add [] initialState "Buy milk" "" Priority.medium none [] "id-1" 0
      (by decide) rfl (by simp [initialState])
  have h2 : Step c2run1 c2run2 :=
    Step.toggle c2run1.1 c2run1.2 "id-1" "id-2" 1
  have h3 : Step c2run2 c2run3 :=
    Step.clear c2run2.1 c2run2.2 "id-3" 2
  exact Reachable.step (Reachable.step (Reachable.step Reachable.start h1) h2) h3

/-- Claim C3: in every reachable configuration the task identifiers are
pairwise distinct and every stored title is non-empty after trimming; no
subsequent action ever changes a task's identifier — an update whose payload
carries no `id` field (the app's updates never do) and a toggle leave the
state's identifier sequence exactly unchanged, and every action yields an
identifier sequence that is a subsequence of the previous one (tasks removed,
never renamed) except an add, which appends one fresh identifier — and no
subsequent action changes the creation timestamp held under an existing
identifier. -/
theorem reachable_task_invariants (mgr : TaskMgr) (s : TaskState)
    (h : Reachable (mgr, s)) :
    (s.tasks.map Task.id).Nodup
    ∧ (∀ t ∈ s.tasks, jsTrim t.title ≠ "")
    ∧ (∀ id u i n, u.id = none →
        ((taskReducer mgr s (TaskAction.updateTask id u) i n).2.tasks.map
          Task.id) = s.tasks.map Task.id)
    ∧ (∀ id i n,
        ((taskReducer mgr s (TaskAction.toggleTask id) i n).2.tasks.map
          Task.id) = s.tasks.map Task.id)
    ∧ (∀ q, Step (mgr, s) q →
        (q.2.tasks.map Task.id).Sublist (s.tasks.map Task.id)
        ∨ ∃ newId, newId ∉ s.tasks.map Task.id
            ∧ q.2.tasks.map Task.id = s.tasks.map Task.id ++ [newId])
    ∧ ∀ q, Step (mgr, s) q → ∀ t ∈ s.tasks, ∀ t' ∈ q.2.tasks,
        t'.id = t.id → t'.createdAt = t.createdAt := by
  have hInv := reachable_inv h
  exact ⟨hInv.2.1, hInv.2.2,
    fun id u i n hu => update_ids_of_consistent hInv.1 id u i n hu,
    fun id i n => toggle_ids_of_consistent hInv.1 id i n,
    fun q hs => step_ids hInv.1 hs,
    fun q hs => step_preserves_createdAt hInv hs⟩

theorem reachable_task_invariants_witness :
    (c2run1.2.tasks.map Task.id).Nodup
    ∧ (∀ t ∈ c2run1.2.tasks, jsTrim t.title ≠ "")
    ∧ (∀ id u i n, u.id = none →
        ((taskReducer c2run1.1 c2run1.2 (TaskAction.updateTask id u) i n).2.tasks.map
          Task.id) = c2run1.2.tasks.map Task.id)
    ∧ (∀ id i n,
        ((taskReducer c2run1.1 c2run1.2 (TaskAction.toggleTask id) i n).2.tasks.map
          Task.id) = c2run1.2.tasks.map Task.id)
    ∧ (∀ q, Step (c2run1.1, c2run1.2) q →
        (q.2.tasks.map Task.id).Sublist (c2run1.2.tasks.map Task.id)
        ∨ ∃ newId, newId ∉ c2run1.2.tasks.map Task.id
            ∧ q.2.tasks.map Task.id = c2run1.2.tasks.map Task.id ++ [newId])
    ∧ ∀ q, Step (c2run1.1, c2run1.2) q → ∀ t ∈ c2run1.2.tasks,
        ∀ t' ∈ q.2.tasks, t'.id = t.id → t'.createdAt = t.createdAt :=
  reachable_task_invariants c2run1.1 c2run1.2
    (Reachable.step Reachable.start
      (Step.add [] initialState "Buy milk" "" Priority.medium none [] "id-1" 0
        (by decide) rfl (by simp [initialState])))

/-- Claim C4: the view-projection keeps exactly the tasks satisfying the
conjunction of the three criteria — status ("active" excludes completed,
"completed" excludes incomplete, "all" excludes nothing), case-insensitive
substring search over title or description when the search text is non-empty,
and priority equality when the priority filter is not "all". -/
theorem filterTasks_filter_is_conjunction (tasks : List Task)
    (f : StatusFilter) (q : String) (p : PriorityFilter) :
    TaskManager.filterTasks tasks f q p
      = List.insertionSort taskLE (tasks.filter fun t =>
          specStatusOk f t && specSearchOk q t && specPriorityOk p t) := by
  unfold TaskManager.filterTasks
  rw [List.filter_congr fun t _ => taskPass_eq_conj f q p t]

/-- Claim C5: the view-projection's output is a permutation of the surviving
set, sorted by descending priority rank (high=3, medium=2, low=1) with ties
broken by descending creation timestamp, and the sort is stable: within each
class of equal (priority, timestamp) pairs the output order equals the input
order, so equal entries are never reordered. -/
theorem filterTasks_sorted_and_stable (tasks : List Task) (f : StatusFilter)
    (q : String) (p : PriorityFilter) :
    List.Pairwise (fun a b =>
        priorityOrder b.priority < priorityOrder a.priority
        ∨ (priorityOrder a.priority = priorityOrder b.priority
            ∧ b.createdAt ≤ a.createdAt))
      (TaskManager.filterTasks tasks f q p)
    ∧ List.Perm (TaskManager.filterTasks tasks f q p)
        (tasks.filter (taskPass f q p))
    ∧ ∀ (pr : Priority) (ts : Int),
        (TaskManager.filterTasks tasks f q p).filter (sameKey pr ts)
          = (tasks.filter (taskPass f q p)).filter (sameKey pr ts) := by
  refine ⟨?_, ?_, ?_⟩
  · have hs := List.sorted_insertionSort taskLE (tasks.filter (taskPass f q p))
    exact List.Pairwise.imp (fun hab => (taskLE_iff _ _).mp hab) hs
  · exact List.perm_insertionSort taskLE _
  · intro pr ts
    exact insertionSort_filter_sameKey pr ts _

/-- Claim C6: adding a factory-built task whose raw title trims to non-empty
appends exactly one task at the end of the list, carrying the trimmed title,
`completed = false`, the fresh injected identifier and the injected timestamp,
while all previous tasks and the three filter fields are unchanged; the fresh
identifier is new and the timestamp is not earlier than any existing task's. -/
theorem addTask_appends (mgr : TaskMgr) (s : TaskState)
    (title description : String) (pr : Priority) (dd : Option Int)
    (tags : List String) (freshId : String) (now : Int)
    (_htitle : jsTrim title ≠ "")
    (hfresh : freshId ∉ s.tasks.map Task.id)
    (hnow : ∀ t ∈ s.tasks, t.createdAt ≤ now) :
    (taskReducer mgr s
        (TaskAction.addTask
          (TaskFactory.createTask title description pr dd tags))
        freshId now).2
      = { s with tasks := s.tasks ++
          [{ id := freshId, title := jsTrim title
             description := jsTrim description, completed := false
             priority := pr, createdAt := now, dueDate := dd, tags := tags }] }
    ∧ freshId ∉ s.tasks.map Task.id
    ∧ ∀ t ∈ s.tasks, t.createdAt ≤ now :=
  ⟨rfl, hfresh, hnow⟩

theorem addTask_appends_witness :
    ((taskReducer [] initialState
        (TaskAction.addTask
          (TaskFactory.createTask "Pay rent" "" Priority.high none []))
        "id-9" 7).2
      = { initialState with tasks := initialState.tasks ++
          [{ id := "id-9", title := jsTrim "Pay rent"
             description := jsTrim "", completed := false
             priority := Priority.high, createdAt := 7, dueDate := none
             tags := [] }] })
    ∧ "id-9" ∉ initialState.tasks.map Task.id
    ∧ ∀ t ∈ initialState.tasks, t.createdAt ≤ 7 :=
  addTask_appends [] initialState "Pay rent" "" Priority.high none [] "id-9" 7
    (by decide) (by decide) (by decide)

/-- Claim C7: update, delete and toggle actions whose identifier occurs
nowhere in the state's task list return a state equal to the input state;
being total functions, they raise no fault. -/
theorem absent_id_noop (mgr : TaskMgr) (s : TaskState) (id : String)
    (u : TaskUpdates) (i : String) (n : Int)
    (h : id ∉ s.tasks.map Task.id) :
    (taskReducer mgr s (TaskAction.updateTask id u) i n).2 = s
    ∧ (taskReducer mgr s (TaskAction.deleteTask id) i n).2 = s
    ∧ (taskReducer mgr s (TaskAction.toggleTask id) i n).2 = s :=
  ⟨update_noop mgr s id u i n h, delete_noop mgr s id i n h,
    toggle_noop mgr s id i n h⟩

theorem absent_id_noop_witness :
    ((taskReducer sampleMgr sampleState
        (TaskAction.updateTask "zzz" (editUpdates "x" "y")) "i" 3).2
      = sampleState)
    ∧ ((taskReducer sampleMgr sampleState
        (TaskAction.deleteTask "zzz") "i" 3).2 = sampleState)
    ∧ ((taskReducer sampleMgr sampleState
        (TaskAction.toggleTask "zzz") "i" 3).2 = sampleState) :=
  absent_id_noop sampleMgr sampleState "zzz" (editUpdates "x" "y") "i" 3
    (by decide)

/-- Claim C8: clear-completed removes exactly the tasks whose completion flag
is set (a task of the state survives iff it is incomplete), and it is
idempotent: a second application returns the map and state unchanged. -/
theorem clearCompleted_exact_and_idempotent (mgr : TaskMgr) (s : TaskState)
    (i₁ i₂ : String) (n₁ n₂ : Int) :
    ((taskReducer mgr s TaskAction.clearCompleted i₁ n₁).2.tasks
        = s.tasks.filter fun t => !t.completed)
    ∧ (∀ t ∈ s.tasks,
        (t ∈ (taskReducer mgr s TaskAction.clearCompleted i₁ n₁).2.tasks
          ↔ t.completed = false))
    ∧ taskReducer (taskReducer mgr s TaskAction.clearCompleted i₁ n₁).1
        (taskReducer mgr s TaskAction.clearCompleted i₁ n₁).2
        TaskAction.clearCompleted i₂ n₂
      = taskReducer mgr s TaskAction.clearCompleted i₁ n₁ := by
  refine ⟨rfl, ?_, ?_⟩
  · intro t ht
    simp [clear_effect, List.mem_filter, ht]
  · have hff : ((s.tasks.filter fun t => !t.completed).filter
        fun t => !t.completed) = s.tasks.filter fun t => !t.completed :=
      List.filter_eq_self.mpr fun a ha => (List.mem_filter.mp ha).2
    rw [clear_effect, clear_effect]
    dsimp only
    rw [hff]

/-- Claim C10: each filter-setting action only replaces its own field —
status filter, search text (stored verbatim, no trimming), or priority
filter — leaving the task list, the other two filter fields, and the lookup
map untouched. -/
theorem filter_setters_frame (mgr : TaskMgr) (s : TaskState)
    (f : StatusFilter) (q : String) (p : PriorityFilter) (i : String)
    (n : Int) :
    taskReducer mgr s (TaskAction.setFilter f) i n
        = (mgr, { s with filter := f })
    ∧ taskReducer mgr s (TaskAction.setSearch q) i n
        = (mgr, { s with searchQuery := q })
    ∧ taskReducer mgr s (TaskAction.setPriorityFilter p) i n
        = (mgr, { s with selectedPriority := p }) :=
  ⟨rfl, rfl, rfl⟩

/-- Claim C9: when the identifier occurs in the task list of a state whose
lookup map is consistent with it, toggling that task twice in a row restores
the whole state: the completion flag returns to its original value and every
other field of every task (and the filter fields) are unchanged. -/
theorem toggle_twice_restores (mgr : TaskMgr) (s : TaskState) (id : String)
    (i₁ i₂ : String) (n₁ n₂ : Int)
    (hc : Consistent mgr s) (hmem : id ∈ s.tasks.map Task.id) :
    (taskReducer (taskReducer mgr s (TaskAction.toggleTask id) i₁ n₁).1
        (taskReducer mgr s (TaskAction.toggleTask id) i₁ n₁).2
        (TaskAction.toggleTask id) i₂ n₂).2 = s := by
  obtain ⟨tf, hfind, htf, htfid⟩ := find?_id_mem s.tasks id hmem
  have hget : mapGet mgr id = some tf := by
    have := hc tf htf
    rw [htfid] at this
    exact this
  rw [toggle_effect_some s i₁ n₁ hget, mergeTask_completedOnly,
    toggleFlag_of_find s id tf hfind]
  set W : Task := { tf with completed := !tf.completed } with hW
  set s₁ : TaskState :=
    { s with tasks := s.tasks.map fun t => if t.id = id then W else t } with hs₁
  have hget2 : mapGet (mapSet mgr id W) id = some W := mapGet_mapSet_self mgr id W
  rw [toggle_effect_some s₁ i₂ n₂ hget2, mergeTask_completedOnly]
  have hWid : W.id = id := htfid
  have hfind2 : (s₁.tasks.find? fun t => t.id == id) = some W :=
    find?_map_replace s.tasks id W hWid ⟨tf, htf, htfid⟩
  rw [toggleFlag_of_find s₁ id W hfind2]
  have hWW : ({ W with completed := !W.completed } : Task) = tf := by
    rw [hW]
    show ({ tf with completed := !!tf.completed } : Task) = tf
    rw [Bool.not_not]
  rw [hWW]
  show ({ s₁ with tasks := s₁.tasks.map fun t => if t.id = id then tf else t }
      : TaskState) = s
  have htasks : (s₁.tasks.map fun t => if t.id = id then tf else t) = s.tasks := by
    rw [hs₁]
    show ((s.tasks.map fun t => if t.id = id then W else t).map
        fun t => if t.id = id then tf else t) = s.tasks
    rw [List.map_map]
    have hpt : ∀ t ∈ s.tasks,
        ((fun t => if t.id = id then tf else t) ∘
          fun t => if t.id = id then W else t) t = t := by
      intro t ht
      by_cases h₁ : t.id = id
      · have hteq : t = tf := Consistent.unique hc ht htf (by rw [h₁, htfid])
        subst hteq
        simp [Function.comp, h₁, hWid]
      · simp [Function.comp, h₁]
    rw [List.map_congr_left hpt]
    exact List.map_id' s.tasks
  rw [hs₁] at htasks ⊢
  rw [htasks]

theorem toggle_twice_restores_witness :
    Consistent sampleMgr sampleState
    ∧ "a" ∈ sampleState.tasks.map Task.id
    ∧ (taskReducer
        (taskReducer sampleMgr sampleState (TaskAction.toggleTask "a") "i" 3).1
        (taskReducer sampleMgr sampleState (TaskAction.toggleTask "a") "i" 3).2
        (TaskAction.toggleTask "a") "j" 4).2 = sampleState :=
  ⟨by decide, by decide,
    toggle_twice_restores sampleMgr sampleState "a" "i" "j" 3 4
      (by decide) (by decide)⟩

end TodoApp
